import Mathlib

/-!
Shallow embedding of the children-group subsystem of `bastion`
(`src/bastion/src/children.rs`): the `Msg` envelope, the `Children`
group controller and the `Child` element actor, together with their
`handle` functions and `run` loops.

Rust's type-erased payloads (`Box<dyn Any>` / `Arc<dyn Any>`) are
modelled as a pair of a numeric type identifier (`TypeId`) and a
numeric payload value; a runtime type check `is::<M>()` becomes an
equality test on type identifiers.  The strong count of an `Arc` cell
lives on the heap in Rust; here it is threaded explicitly through the
operations that read or change it.

Effects on the broadcast collaborator (which is referenced by
interface only) are recorded as an explicit event trace.
-/

/-- Numeric model of `std::any::TypeId`. -/
abbrev TypeId := Nat

/-- Shallow embedding of `MsgInner` (and of the `Msg` newtype wrapping
it, flattened): either a reference-counted shared payload or a uniquely
owned payload, each carrying its runtime type identifier and value. -/
inductive Msg where
  | Shared (tyId : TypeId) (val : Nat)
  | Owned (tyId : TypeId) (val : Nat)
deriving DecidableEq

/-- Shallow embedding of `Msg::shared`: wrap in a reference-counted cell. -/
def Msg.shared (tyId : TypeId) (val : Nat) : Msg :=
  Msg.Shared tyId val

/-- Shallow embedding of `Msg::owned`: wrap in a unique owning cell. -/
def Msg.owned (tyId : TypeId) (val : Nat) : Msg :=
  Msg.Owned tyId val

/-- Shallow embedding of `Msg::is_broadcast`: true iff the envelope is shared. -/
def Msg.is_broadcast : Msg → Bool
  | Msg.Shared _ _ => true
  | Msg.Owned _ _ => false

/-- Shallow embedding of `Msg::downcast::<M>`: consumes the envelope and
returns the payload only when it is `Owned` and the type matches
(`msg.is::<M>()`); otherwise returns the envelope unchanged. -/
def Msg.downcast (m : Msg) (t : TypeId) : Sum Nat Msg :=
  match m with
  | Msg.Owned tyId val =>
    if tyId = t then Sum.inl val
    else Sum.inr (Msg.Owned tyId val)
  | Msg.Shared tyId val => Sum.inr (Msg.Shared tyId val)

/-- Shallow embedding of `Msg::downcast_ref::<M>`: non-consuming; when the
envelope is `Shared` and the type matches, clones the `Arc` (incrementing
the cell's strong count, passed and returned explicitly) and returns the
payload behind the new strong reference; otherwise returns `none` and
leaves the count unchanged. -/
def Msg.downcast_ref (m : Msg) (t : TypeId) (strong : Nat) : Option Nat × Nat :=
  match m with
  | Msg.Shared tyId val =>
    if tyId = t then (some val, strong + 1) else (none, strong)
  | Msg.Owned _ _ => (none, strong)

/-- Shallow embedding of `Msg::try_clone`: `some` (with the strong count
incremented) only for a shared envelope; `none` for an owned one. -/
def Msg.try_clone (m : Msg) (strong : Nat) : Option Msg × Nat :=
  match m with
  | Msg.Shared tyId val => (some (Msg.Shared tyId val), strong + 1)
  | Msg.Owned _ _ => (none, strong)

/-- Shallow embedding of `Msg::try_unwrap::<M>`: for a `Shared` envelope,
first downcast the `Arc` (type check; `Err` restores the envelope), then
`Arc::try_unwrap` succeeds exactly when this handle is the last strong
reference (`strong = 1`), and failure restores the envelope; for an
`Owned` envelope, delegates to `downcast`. -/
def Msg.try_unwrap (m : Msg) (t : TypeId) (strong : Nat) : Sum Nat Msg :=
  match m with
  | Msg.Shared tyId val =>
    if tyId = t then
      if strong = 1 then Sum.inl val
      else Sum.inr (Msg.Shared tyId val)
    else Sum.inr (Msg.Shared tyId val)
  | Msg.Owned tyId val => Msg.downcast (Msg.Owned tyId val) t

/-- Iterate `Msg.downcast_ref` a number of times from a given strong count,
collecting the results of each call and the final strong count. -/
def downcastRefIter (m : Msg) (t : TypeId) : Nat → Nat → List (Option Nat) × Nat
  | 0, strong => ([], strong)
  | Nat.succ k, strong =>
    let r := m.downcast_ref t strong
    let rest := downcastRefIter m t k r.2
    (r.1 :: rest.1, rest.2)

/-- Modelled from the spec: `BastionId` is an opaque, globally-unique,
cheaply cloneable token assigned at construction (spec §3); modelled as a
natural number drawn from a fresh counter. -/
abbrev BastionId := Nat

/-- Modelled from the spec: the control message `BastionMessage` (the
spec's `CtlMsg`, §3, defined in the absent `broadcast.rs`): a closed
tagged variant `Start`, `Stop`, `Kill`, `Tell(Msg)`, `Deploy(_)`,
`Prune{..}`, `SuperviseWith(_)`, `Stopped{id}`, `Faulted{id}`.  The
payloads of the reserved variants `Deploy`/`Prune`/`SuperviseWith` are
irrelevant to this layer and omitted. -/
inductive BastionMessage where
  | start
  | stop
  | kill
  | tell (msg : Msg)
  | deploy
  | prune
  | superviseWith
  | stopped (id : BastionId)
  | faulted (id : BastionId)
deriving DecidableEq

/-- Modelled from the spec: the observable effects on the broadcast
collaborator (spec §2, §6; `broadcast.rs` is absent from the sources):
`stop_children` / `kill_children` fan a `Stop` / `Kill` out to every
registered child, `stopped` / `faulted` emit the escalation signal to the
parent link, and `send_children` fans an arbitrary message out to the
children. -/
inductive Event where
  | stopChildren
  | killChildren
  | stopped
  | faulted
  | sendChildren (m : BastionMessage)
deriving DecidableEq

/-- The two panic macros reachable from `handle`: `unreachable!()` and
`unimplemented!()`. -/
inductive PanicKind where
  | unreachableCode
  | unimplementedCode
deriving DecidableEq

/-- Result of a `handle` call: `ok` (continue running), `term`
(`Err(())`, the terminal signal), or a panic, together with the state
and the events emitted before returning. -/
inductive HandleRes (σ : Type) where
  | ok (st : σ) (evs : List Event)
  | term (st : σ) (evs : List Event)
  | panic (k : PanicKind)
deriving DecidableEq

/-- State of the `Children` group controller (the fields of
`struct Children`).  `launched` keeps only the element ids: the sender
and join handle each id maps to belong to absent collaborators
(`Sender`, `Proc`) with no behaviour modelled beyond the event trace.
`bcastId`, `supervisorId` and `initTag` are opaque tokens standing for
the `bcast`, `supervisor` and `init` fields. -/
structure ChildrenSt where
  bcastId : Nat
  supervisorId : Nat
  launched : List BastionId
  initTag : Nat
  redundancy : Nat
  pre_start_msgs : List BastionMessage
  started : Bool
deriving DecidableEq

/-- Poll outcome of the element's panic-catching user future `exec`:
still pending, finished `Ok(Ok(()))`, finished `Ok(Err(()))`
(user-reported error), or finished `Err(_)` (caught panic). -/
inductive ExecPoll where
  | pending
  | finOk
  | finErr
  | finPanic
deriving DecidableEq

/-- State of the `Child` element actor (the fields of `struct Child`).
The `Qutex<ContextState>` is modelled as the mailbox list (modelled from
the spec: `ContextState` of the absent `context.rs` holds the element's
ordered mailbox of `Msg`, §3) together with a flag `lockAlive` that is
false when acquiring the lock fails (owner dropped).  `exec` is the
deterministic sequence of poll outcomes of the user future. -/
structure ChildSt where
  mailbox : List Msg
  lockAlive : Bool
  exec : List ExecPoll
  pre_start_msgs : List BastionMessage
  started : Bool
deriving DecidableEq

/-- Shallow embedding of `Children::stop`: `bcast.stop_children()`, then
drain `launched` and await every join handle. -/
def Children.stop (st : ChildrenSt) : ChildrenSt × List Event :=
  ({ st with launched := [] }, [Event.stopChildren])

/-- Shallow embedding of `Children::kill`: `bcast.kill_children()`, then
drain `launched` and await every join handle. -/
def Children.kill (st : ChildrenSt) : ChildrenSt × List Event :=
  ({ st with launched := [] }, [Event.killChildren])

/-- Shallow embedding of `Children::handle`. -/
def Children.handle (st : ChildrenSt) (msg : BastionMessage) : HandleRes ChildrenSt :=
  match msg with
  | BastionMessage.start => HandleRes.panic PanicKind.unreachableCode
  | BastionMessage.stop =>
    let r := Children.stop st
    HandleRes.term r.1 (r.2 ++ [Event.stopped])
  | BastionMessage.kill =>
    let r := Children.kill st
    HandleRes.term r.1 (r.2 ++ [Event.stopped])
  | BastionMessage.deploy => HandleRes.panic PanicKind.unimplementedCode
  | BastionMessage.prune => HandleRes.panic PanicKind.unimplementedCode
  | BastionMessage.superviseWith => HandleRes.panic PanicKind.unimplementedCode
  | BastionMessage.tell m =>
    HandleRes.ok st [Event.sendChildren (BastionMessage.tell m)]
  | BastionMessage.stopped id =>
    if id ∈ st.launched then
      let r := Children.kill st
      HandleRes.term r.1 (r.2 ++ [Event.stopped])
    else HandleRes.ok st []
  | BastionMessage.faulted id =>
    if id ∈ st.launched then
      let r := Children.kill st
      HandleRes.term r.1 (r.2 ++ [Event.faulted])
    else HandleRes.ok st []

/-- Shallow embedding of `Child::handle`. -/
def Child.handle (st : ChildSt) (msg : BastionMessage) : HandleRes ChildSt :=
  match msg with
  | BastionMessage.start => HandleRes.panic PanicKind.unreachableCode
  | BastionMessage.stop => HandleRes.term st [Event.stopped]
  | BastionMessage.kill => HandleRes.term st [Event.stopped]
  | BastionMessage.deploy => HandleRes.panic PanicKind.unimplementedCode
  | BastionMessage.prune => HandleRes.panic PanicKind.unimplementedCode
  | BastionMessage.superviseWith => HandleRes.panic PanicKind.unimplementedCode
  | BastionMessage.tell m =>
    if st.lockAlive then
      HandleRes.ok { st with mailbox := st.mailbox ++ [m] } []
    else
      HandleRes.term st []
  | BastionMessage.stopped _ => HandleRes.panic PanicKind.unimplementedCode
  | BastionMessage.faulted _ => HandleRes.panic PanicKind.unimplementedCode

/-- Result of folding `handle` over a drained list of buffered messages:
the final state, the messages actually passed to `handle` in order, the
events emitted, and whether the fold ran to completion, hit the terminal
signal, or panicked. -/
inductive FoldRes (σ : Type) where
  | ok (st : σ) (handled : List BastionMessage) (evs : List Event)
  | term (st : σ) (handled : List BastionMessage) (evs : List Event)
  | panicked (handled : List BastionMessage) (evs : List Event) (k : PanicKind)
deriving DecidableEq

/-- Fold a `handle` function over a list of messages, stopping at the
first terminal signal or panic (the replay loop
`for msg in msgs { if self.handle(msg).await.is_err() { return } }`). -/
def handleAll {σ : Type} (h : σ → BastionMessage → HandleRes σ) (st : σ) :
    List BastionMessage → FoldRes σ
  | [] => FoldRes.ok st [] []
  | m :: ms =>
    match h st m with
    | HandleRes.ok st1 evs1 =>
      match handleAll h st1 ms with
      | FoldRes.ok st2 hs es => FoldRes.ok st2 (m :: hs) (evs1 ++ es)
      | FoldRes.term st2 hs es => FoldRes.term st2 (m :: hs) (evs1 ++ es)
      | FoldRes.panicked hs es k => FoldRes.panicked (m :: hs) (evs1 ++ es) k
    | HandleRes.term st1 evs1 => FoldRes.term st1 [m] evs1
    | HandleRes.panic k => FoldRes.panicked [m] [] k

/-- One observation of the actor's inbound stream `poll!(self.bcast.next())`:
a message is ready, the stream is closed (no producers remain), or the
poll is pending. -/
inductive StreamEv where
  | msg (m : BastionMessage)
  | closed
  | pending
deriving DecidableEq

/-- How a `run` loop left off after consuming a finite stream prefix:
still running (the prefix was exhausted), returned (terminated), or
panicked. -/
inductive RunOutcome where
  | running
  | terminated
  | panicked (k : PanicKind)
deriving DecidableEq

/-- Result of running an actor loop on a finite prefix of its inbound
stream: final state (on a panic, the state at the moment of the panic),
the messages passed to `handle` in order, the emitted events, and the
outcome. -/
structure RunRes (σ : Type) where
  state : σ
  handled : List BastionMessage
  events : List Event
  outcome : RunOutcome
deriving DecidableEq

/-- Shallow embedding of `Children::run`, consuming a finite prefix of
the inbound stream.  On `Start` (whether or not already started): latch
`started`, fan `Start` out to the children, drain `pre_start_msgs` and
replay each through `handle`, returning if any replay is terminal.  A
non-`Start` message is buffered while not started and handled once
started.  On stream closure: kill the children and notify `faulted`. -/
def Children.run (st : ChildrenSt) : List StreamEv → RunRes ChildrenSt
  | [] => ⟨st, [], [], RunOutcome.running⟩
  | StreamEv.pending :: evs => Children.run st evs
  | StreamEv.closed :: _ =>
    ⟨{ st with launched := [] }, [], [Event.killChildren, Event.faulted],
      RunOutcome.terminated⟩
  | StreamEv.msg BastionMessage.start :: evs =>
    match handleAll Children.handle { st with started := true, pre_start_msgs := [] }
        st.pre_start_msgs with
    | FoldRes.ok st2 hs es =>
      let r := Children.run st2 evs
      ⟨r.state, hs ++ r.handled,
        Event.sendChildren BastionMessage.start :: (es ++ r.events), r.outcome⟩
    | FoldRes.term st2 hs es =>
      ⟨st2, hs, Event.sendChildren BastionMessage.start :: es, RunOutcome.terminated⟩
    | FoldRes.panicked hs es k =>
      ⟨{ st with started := true, pre_start_msgs := [] }, hs,
        Event.sendChildren BastionMessage.start :: es, RunOutcome.panicked k⟩
  | StreamEv.msg m :: evs =>
    if st.started then
      match Children.handle st m with
      | HandleRes.ok st1 es =>
        let r := Children.run st1 evs
        ⟨r.state, m :: r.handled, es ++ r.events, r.outcome⟩
      | HandleRes.term st1 es => ⟨st1, [m], es, RunOutcome.terminated⟩
      | HandleRes.panic k => ⟨st, [m], [], RunOutcome.panicked k⟩
    else
      Children.run { st with pre_start_msgs := st.pre_start_msgs ++ [m] } evs

/-- Shallow embedding of `Child::run`, consuming a finite prefix of the
inbound stream.  Message branches mirror `Children.run` (without the
`Start` fan-out); a pending inbound poll while started polls `exec`
once: `Ok(Ok(()))` notifies `stopped`, `Ok(Err(()))` or a caught panic
notifies `faulted`; while not started the future is not polled. -/
def Child.run (st : ChildSt) : List StreamEv → RunRes ChildSt
  | [] => ⟨st, [], [], RunOutcome.running⟩
  | StreamEv.pending :: evs =>
    if st.started then
      match st.exec with
      | [] => Child.run st evs
      | ExecPoll.pending :: rest => Child.run { st with exec := rest } evs
      | ExecPoll.finOk :: rest =>
        ⟨{ st with exec := rest }, [], [Event.stopped], RunOutcome.terminated⟩
      | ExecPoll.finErr :: rest =>
        ⟨{ st with exec := rest }, [], [Event.faulted], RunOutcome.terminated⟩
      | ExecPoll.finPanic :: rest =>
        ⟨{ st with exec := rest }, [], [Event.faulted], RunOutcome.terminated⟩
    else Child.run st evs
  | StreamEv.closed :: _ => ⟨st, [], [Event.faulted], RunOutcome.terminated⟩
  | StreamEv.msg BastionMessage.start :: evs =>
    match handleAll Child.handle { st with started := true, pre_start_msgs := [] }
        st.pre_start_msgs with
    | FoldRes.ok st2 hs es =>
      let r := Child.run st2 evs
      ⟨r.state, hs ++ r.handled, es ++ r.events, r.outcome⟩
    | FoldRes.term st2 hs es => ⟨st2, hs, es, RunOutcome.terminated⟩
    | FoldRes.panicked hs es k =>
      ⟨{ st with started := true, pre_start_msgs := [] }, hs, es, RunOutcome.panicked k⟩
  | StreamEv.msg m :: evs =>
    if st.started then
      match Child.handle st m with
      | HandleRes.ok st1 es =>
        let r := Child.run st1 evs
        ⟨r.state, m :: r.handled, es ++ r.events, r.outcome⟩
      | HandleRes.term st1 es => ⟨st1, [m], es, RunOutcome.terminated⟩
      | HandleRes.panic k => ⟨st, [m], [], RunOutcome.panicked k⟩
    else
      Child.run { st with pre_start_msgs := st.pre_start_msgs ++ [m] } evs

/-- Helper for `Children.new_elems`: spawn `n` fresh elements, drawing
ids from the fresh counter and inserting each into `launched`. -/
def Children.new_elemsAux : Nat → Nat → ChildrenSt → ChildrenSt
  | 0, _, st => st
  | Nat.succ n, fresh, st =>
    Children.new_elemsAux n (fresh + 1) { st with launched := st.launched ++ [fresh] }

/-- Shallow embedding of `Children::new_elems`: for `redundancy`
iterations, build a fresh per-element broadcast endpoint (with a fresh
globally-unique id), spawn the element task, and record the id in
`launched`. -/
def Children.new_elems (st : ChildrenSt) (fresh : Nat) : ChildrenSt :=
  Children.new_elemsAux st.redundancy fresh st

/-- Shallow embedding of `Children::new`: empty `launched`, empty
`pre_start_msgs`, `started = false`, then `new_elems`. -/
def Children.new (initTag bcastId supervisorId redundancy fresh : Nat) : ChildrenSt :=
  Children.new_elems
    { bcastId := bcastId, supervisorId := supervisorId, launched := [],
      initTag := initTag, redundancy := redundancy, pre_start_msgs := [],
      started := false } fresh

/-- Shallow embedding of `Children::reset`: kill (not stop) the current
elements and await their joins, swap in the new broadcast endpoint and
supervisor handle, then spawn fresh elements. -/
def Children.reset (st : ChildrenSt) (bcastId supervisorId fresh : Nat) :
    ChildrenSt × List Event :=
  let r := Children.kill st
  let st1 := { r.1 with bcastId := bcastId, supervisorId := supervisorId }
  (Children.new_elems st1 fresh, r.2)

/-- Specification-side characterization of which messages reach `handle`
when a list is processed in order: every message up to and including the
first one whose handling is terminal or panics. -/
def takeHandled {σ : Type} (h : σ → BastionMessage → HandleRes σ) :
    σ → List BastionMessage → List BastionMessage
  | _, [] => []
  | st, m :: ms =>
    match h st m with
    | HandleRes.ok st1 _ => m :: takeHandled h st1 ms
    | HandleRes.term _ _ => [m]
    | HandleRes.panic _ => [m]

/-- C7: Envelope round-trip: `owned(x).downcast::<T>()` returns `Ok(x)` when
the type matches; `downcast` on a shared envelope, or on an owned envelope
of a different type, returns `Err` with the envelope unchanged; and on a
shared envelope of matching type, `downcast_ref` succeeds any number of
times, each call returning the payload behind a new strong reference
(incrementing the strong count) without consuming the envelope. -/
theorem envelope_round_trip (t t2 v k s : Nat) (hne : t ≠ t2) :
    (Msg.owned t v).downcast t = Sum.inl v
    ∧ (Msg.owned t v).downcast t2 = Sum.inr (Msg.owned t v)
    ∧ (Msg.shared t v).downcast t2 = Sum.inr (Msg.shared t v)
    ∧ (Msg.shared t v).downcast t = Sum.inr (Msg.shared t v)
    ∧ downcastRefIter (Msg.shared t v) t k s = (List.replicate k (some v), s + k) := by
  refine ⟨by simp [Msg.owned, Msg.downcast],
    by simp [Msg.owned, Msg.downcast, hne],
    by simp [Msg.shared, Msg.downcast],
    by simp [Msg.shared, Msg.downcast], ?_⟩
  induction k generalizing s with
  | zero => simp [downcastRefIter]
  | succ k ih =>
    have ih2 : ∀ s2, downcastRefIter (Msg.Shared t v) t k s2
        = (List.replicate k (some v), s2 + k) := by
      intro s2
      simpa [Msg.shared] using ih s2
    simp [downcastRefIter, Msg.downcast_ref, Msg.shared, ih2, List.replicate_succ]
    omega

/-- Witness for `envelope_round_trip` at `t = 0`, `t2 = 1`, `v = 5`,
`k = 3`, `s = 7`. -/
theorem envelope_round_trip_witness :
    (0 : Nat) ≠ 1
    ∧ ((Msg.owned 0 5).downcast 0 = Sum.inl 5
      ∧ (Msg.owned 0 5).downcast 1 = Sum.inr (Msg.owned 0 5)
      ∧ (Msg.shared 0 5).downcast 1 = Sum.inr (Msg.shared 0 5)
      ∧ (Msg.shared 0 5).downcast 0 = Sum.inr (Msg.shared 0 5)
      ∧ downcastRefIter (Msg.shared 0 5) 0 3 7 = (List.replicate 3 (some 5), 7 + 3)) :=
  ⟨by decide, envelope_round_trip 0 1 5 3 7 (by decide)⟩

/-- C3: Try-unwrap law: on a shared envelope, `try_unwrap::<T>` succeeds
(returning the payload) iff this handle is the last strong reference and
the payload's type is `T`; on failure it returns the envelope unchanged,
still shared with the same payload.  On an owned envelope it behaves
exactly as `downcast`. -/
theorem try_unwrap_law (t t2 v strong : Nat) :
    ((∃ w, (Msg.shared t v).try_unwrap t2 strong = Sum.inl w) ↔ (t = t2 ∧ strong = 1))
    ∧ (t = t2 ∧ strong = 1 → (Msg.shared t v).try_unwrap t2 strong = Sum.inl v)
    ∧ (¬ (t = t2 ∧ strong = 1) →
        (Msg.shared t v).try_unwrap t2 strong = Sum.inr (Msg.shared t v))
    ∧ (Msg.owned t v).try_unwrap t2 strong = (Msg.owned t v).downcast t2 := by
  unfold Msg.try_unwrap Msg.shared Msg.owned
  by_cases h1 : t = t2 <;> by_cases h2 : strong = 1 <;> simp [h1, h2]

/-- Witness for `try_unwrap_law` on a uniquely-held shared envelope of the
matching type: the unwrap succeeds and returns the payload. -/
theorem try_unwrap_law_witness :
    ((0 : Nat) = 0 ∧ (1 : Nat) = 1)
    ∧ (Msg.shared 0 5).try_unwrap 0 1 = Sum.inl 5 :=
  ⟨by decide, (try_unwrap_law 0 0 5 1).2.1 (by decide)⟩

/-- C6: Element-level Stop/Kill equivalence: for every element state,
`Child::handle(Stop)` and `Child::handle(Kill)` coincide — both notify
`stopped` and return the terminal signal. -/
theorem stop_kill_element_equiv (st : ChildSt) :
    Child.handle st BastionMessage.stop = Child.handle st BastionMessage.kill
    ∧ Child.handle st BastionMessage.stop = HandleRes.term st [Event.stopped]
    ∧ Child.handle st BastionMessage.kill = HandleRes.term st [Event.stopped] :=
  ⟨rfl, rfl, rfl⟩

/-- C5 (evaluation at the failing inputs): handling any reserved control
variant — `Deploy`, `Prune`, `SuperviseWith` at either layer; `Stopped`,
`Faulted` at the element layer — panics through an `unimplemented!()`
stub, for every state. -/
theorem reserved_variants_panic (stg : ChildrenSt) (stc : ChildSt) (id1 id2 : BastionId) :
    Children.handle stg BastionMessage.deploy = HandleRes.panic PanicKind.unimplementedCode
    ∧ Children.handle stg BastionMessage.prune = HandleRes.panic PanicKind.unimplementedCode
    ∧ Children.handle stg BastionMessage.superviseWith
        = HandleRes.panic PanicKind.unimplementedCode
    ∧ Child.handle stc BastionMessage.deploy = HandleRes.panic PanicKind.unimplementedCode
    ∧ Child.handle stc BastionMessage.prune = HandleRes.panic PanicKind.unimplementedCode
    ∧ Child.handle stc BastionMessage.superviseWith
        = HandleRes.panic PanicKind.unimplementedCode
    ∧ Child.handle stc (BastionMessage.stopped id1)
        = HandleRes.panic PanicKind.unimplementedCode
    ∧ Child.handle stc (BastionMessage.faulted id2)
        = HandleRes.panic PanicKind.unimplementedCode :=
  ⟨rfl, rfl, rfl, rfl, rfl, rfl, rfl, rfl⟩

/-- C2: One-for-all escalation with fault preservation: on `Stopped{id}`
with `id ∈ launched`, the group kills the remaining elements (draining
`launched` and awaiting the joins), notifies `stopped` and returns the
terminal signal; on `Faulted{id}` with `id ∈ launched`, the same but the
notification is `faulted`; for either message, an unknown id is ignored —
the state is unchanged, no event is emitted, and the group keeps
running. -/
theorem one_for_all_escalation (st : ChildrenSt) (id : BastionId) :
    (id ∈ st.launched →
      Children.handle st (BastionMessage.stopped id)
          = HandleRes.term { st with launched := [] } [Event.killChildren, Event.stopped]
        ∧ Children.handle st (BastionMessage.faulted id)
          = HandleRes.term { st with launched := [] } [Event.killChildren, Event.faulted])
    ∧ (id ∉ st.launched →
      Children.handle st (BastionMessage.stopped id) = HandleRes.ok st []
        ∧ Children.handle st (BastionMessage.faulted id) = HandleRes.ok st []) := by
  constructor <;> intro h <;> constructor <;> simp [Children.handle, Children.kill, h]

/-- Witness for `one_for_all_escalation` on a freshly built group of
redundancy 1, whose single launched element has id 0. -/
theorem one_for_all_escalation_witness :
    (0 ∈ (Children.new 0 0 0 1 0).launched)
    ∧ (Children.handle (Children.new 0 0 0 1 0) (BastionMessage.stopped 0)
          = HandleRes.term { Children.new 0 0 0 1 0 with launched := [] }
              [Event.killChildren, Event.stopped]
        ∧ Children.handle (Children.new 0 0 0 1 0) (BastionMessage.faulted 0)
          = HandleRes.term { Children.new 0 0 0 1 0 with launched := [] }
              [Event.killChildren, Event.faulted]) :=
  ⟨by decide, (one_for_all_escalation (Children.new 0 0 0 1 0) 0).1 (by decide)⟩

/-- Unfolding of `Children.new_elemsAux`: it appends `n` consecutive fresh
ids to `launched` and leaves every other field unchanged. -/
theorem new_elemsAux_eq (n : Nat) : ∀ (fresh : Nat) (st : ChildrenSt),
    Children.new_elemsAux n fresh st
      = { st with launched := st.launched ++ (List.range n).map (fun i => fresh + i) } := by
  induction n with
  | zero => intro fresh st; simp [Children.new_elemsAux]
  | succ n ih =>
    intro fresh st
    rw [Children.new_elemsAux, ih]
    have hf : ((fun i => fresh + i) ∘ Nat.succ) = fun i => fresh + 1 + i := by
      funext i
      simp only [Function.comp_apply]
      omega
    simp [List.range_succ_eq_map, List.map_map, hf, List.append_assoc]

/-- A non-terminal `Children.handle` leaves the state unchanged. -/
theorem children_handle_ok_state (st : ChildrenSt) (m : BastionMessage)
    (st1 : ChildrenSt) (evs : List Event)
    (h : Children.handle st m = HandleRes.ok st1 evs) : st1 = st := by
  cases m with
  | tell m2 =>
    simp [Children.handle] at h
    first | exact h.1.symm | exact h.1
  | stopped id =>
    simp only [Children.handle] at h
    split at h
    · simp [Children.kill] at h
    · simp at h
      first | exact h.1.symm | exact h.1
  | faulted id =>
    simp only [Children.handle] at h
    split at h
    · simp [Children.kill] at h
    · simp at h
      first | exact h.1.symm | exact h.1
  | _ => simp [Children.handle, Children.stop, Children.kill] at h

/-- A terminal `Children.handle` drains `launched` (the group kills and
joins its elements) and changes nothing else. -/
theorem children_handle_term_state (st : ChildrenSt) (m : BastionMessage)
    (st1 : ChildrenSt) (evs : List Event)
    (h : Children.handle st m = HandleRes.term st1 evs) :
    st1 = { st with launched := [] } := by
  cases m with
  | stop =>
    simp [Children.handle, Children.stop] at h
    first | exact h.1.symm | exact h.1
  | kill =>
    simp [Children.handle, Children.kill] at h
    first | exact h.1.symm | exact h.1
  | stopped id =>
    simp only [Children.handle] at h
    split at h
    · simp [Children.kill] at h
      first | exact h.1.symm | exact h.1
    · simp at h
  | faulted id =>
    simp only [Children.handle] at h
    split at h
    · simp [Children.kill] at h
      first | exact h.1.symm | exact h.1
    · simp at h
  | _ => simp [Children.handle] at h

/-- A non-terminal `Child.handle` can only append to the mailbox: the
lifecycle fields are unchanged. -/
theorem child_handle_ok_fields (st : ChildSt) (m : BastionMessage)
    (st1 : ChildSt) (evs : List Event)
    (h : Child.handle st m = HandleRes.ok st1 evs) :
    st1.started = st.started ∧ st1.pre_start_msgs = st.pre_start_msgs
      ∧ st1.lockAlive = st.lockAlive ∧ st1.exec = st.exec := by
  cases m with
  | tell m2 =>
    simp only [Child.handle] at h
    split at h
    · simp at h
      obtain ⟨h1, -⟩ := h
      first
        | (cases h1; exact ⟨rfl, rfl, rfl, rfl⟩)
        | (cases h1.symm; exact ⟨rfl, rfl, rfl, rfl⟩)
    · simp at h
  | _ => simp [Child.handle] at h

/-- A terminal `Child.handle` leaves the state unchanged. -/
theorem child_handle_term_state (st : ChildSt) (m : BastionMessage)
    (st1 : ChildSt) (evs : List Event)
    (h : Child.handle st m = HandleRes.term st1 evs) : st1 = st := by
  cases m with
  | stop =>
    simp [Child.handle] at h
    first | exact h.1.symm | exact h.1
  | kill =>
    simp [Child.handle] at h
    first | exact h.1.symm | exact h.1
  | tell m2 =>
    simp only [Child.handle] at h
    split at h
    · simp at h
    · simp at h
      first | exact h.1.symm | exact h.1
  | _ => simp [Child.handle] at h

/-- When the replay fold runs to completion, every drained message was
handled, in order. -/
theorem handleAll_ok_handled {σ : Type} (h : σ → BastionMessage → HandleRes σ) :
    ∀ (ms : List BastionMessage) (st st2 : σ) (hs : List BastionMessage) (es : List Event),
      handleAll h st ms = FoldRes.ok st2 hs es → hs = ms := by
  intro ms
  induction ms with
  | nil =>
    intro st st2 hs es hh
    simp only [handleAll] at hh
    cases hh
    rfl
  | cons m ms ih =>
    intro st st2 hs es hh
    simp only [handleAll] at hh
    cases hm : h st m with
    | ok st1 evs1 =>
      simp only [hm] at hh
      cases hall : handleAll h st1 ms with
      | ok st2b hsb esb =>
        rw [hall] at hh
        cases hh
        rw [ih _ _ _ _ hall]
      | term st2b hsb esb => rw [hall] at hh; cases hh
      | panicked hsb esb k => rw [hall] at hh; cases hh
    | term st1 evs1 => rw [hm] at hh; cases hh
    | panic k => rw [hm] at hh; cases hh

/-- When the replay fold runs to completion, the handled prefix of any
longer list extends past the drained messages. -/
theorem handleAll_ok_take {σ : Type} (h : σ → BastionMessage → HandleRes σ) :
    ∀ (ms ns : List BastionMessage) (st st2 : σ) (hs : List BastionMessage) (es : List Event),
      handleAll h st ms = FoldRes.ok st2 hs es →
      takeHandled h st (ms ++ ns) = ms ++ takeHandled h st2 ns := by
  intro ms
  induction ms with
  | nil =>
    intro ns st st2 hs es hh
    simp only [handleAll] at hh
    cases hh
    simp
  | cons m ms ih =>
    intro ns st st2 hs es hh
    simp only [handleAll] at hh
    cases hm : h st m with
    | ok st1 evs1 =>
      simp only [hm] at hh
      cases hall : handleAll h st1 ms with
      | ok st2b hsb esb =>
        rw [hall] at hh
        cases hh
        simp only [List.cons_append, takeHandled, hm]
        exact congrArg (List.cons m) (ih _ _ _ _ _ hall)
      | term st2b hsb esb => rw [hall] at hh; cases hh
      | panicked hsb esb k => rw [hall] at hh; cases hh
    | term st1 evs1 => rw [hm] at hh; cases hh
    | panic k => rw [hm] at hh; cases hh

/-- When the replay fold hits the terminal signal, the handled messages
of any extension of the list are exactly the fold's handled prefix. -/
theorem handleAll_term_take {σ : Type} (h : σ → BastionMessage → HandleRes σ) :
    ∀ (ms ns : List BastionMessage) (st st2 : σ) (hs : List BastionMessage) (es : List Event),
      handleAll h st ms = FoldRes.term st2 hs es →
      takeHandled h st (ms ++ ns) = hs := by
  intro ms
  induction ms with
  | nil =>
    intro ns st st2 hs es hh
    simp only [handleAll] at hh
    cases hh
  | cons m ms ih =>
    intro ns st st2 hs es hh
    simp only [handleAll] at hh
    cases hm : h st m with
    | ok st1 evs1 =>
      simp only [hm] at hh
      cases hall : handleAll h st1 ms with
      | ok st2b hsb esb => rw [hall] at hh; cases hh
      | term st2b hsb esb =>
        rw [hall] at hh
        cases hh
        simp only [List.cons_append, takeHandled, hm]
        exact congrArg (List.cons m) (ih _ _ _ _ _ hall)
      | panicked hsb esb k => rw [hall] at hh; cases hh
    | term st1 evs1 =>
      rw [hm] at hh
      cases hh
      simp [takeHandled, hm]
    | panic k => rw [hm] at hh; cases hh

/-- When the replay fold panics, the handled messages of any extension of
the list are exactly the fold's handled prefix. -/
theorem handleAll_panicked_take {σ : Type} (h : σ → BastionMessage → HandleRes σ) :
    ∀ (ms ns : List BastionMessage) (st : σ) (hs : List BastionMessage) (es : List Event)
      (k : PanicKind),
      handleAll h st ms = FoldRes.panicked hs es k →
      takeHandled h st (ms ++ ns) = hs := by
  intro ms
  induction ms with
  | nil =>
    intro ns st hs es k hh
    simp only [handleAll] at hh
    cases hh
  | cons m ms ih =>
    intro ns st hs es k hh
    simp only [handleAll] at hh
    cases hm : h st m with
    | ok st1 evs1 =>
      simp only [hm] at hh
      cases hall : handleAll h st1 ms with
      | ok st2b hsb esb => rw [hall] at hh; cases hh
      | term st2b hsb esb => rw [hall] at hh; cases hh
      | panicked hsb esb kb =>
        rw [hall] at hh
        cases hh
        simp only [List.cons_append, takeHandled, hm]
        exact congrArg (List.cons m) (ih _ _ _ _ _ hall)
    | term st1 evs1 => rw [hm] at hh; cases hh
    | panic kb =>
      rw [hm] at hh
      cases hh
      simp [takeHandled, hm]

/-- A completed replay fold of `Children.handle` leaves the group state
unchanged. -/
theorem children_handleAll_ok_state :
    ∀ (ms : List BastionMessage) (st st2 : ChildrenSt) (hs : List BastionMessage)
      (es : List Event),
      handleAll Children.handle st ms = FoldRes.ok st2 hs es → st2 = st := by
  intro ms
  induction ms with
  | nil =>
    intro st st2 hs es hh
    simp only [handleAll] at hh
    cases hh
    rfl
  | cons m ms ih =>
    intro st st2 hs es hh
    simp only [handleAll] at hh
    cases hm : Children.handle st m with
    | ok st1 evs1 =>
      simp only [hm] at hh
      cases hall : handleAll Children.handle st1 ms with
      | ok st2b hsb esb =>
        rw [hall] at hh
        cases hh
        rw [ih _ _ _ _ hall, children_handle_ok_state st m st1 evs1 hm]
      | term st2b hsb esb => rw [hall] at hh; cases hh
      | panicked hsb esb k => rw [hall] at hh; cases hh
    | term st1 evs1 => rw [hm] at hh; cases hh
    | panic k => rw [hm] at hh; cases hh

/-- A replay fold of `Children.handle` that hits the terminal signal
leaves the group state with `launched` drained and nothing else changed. -/
theorem children_handleAll_term_state :
    ∀ (ms : List BastionMessage) (st st2 : ChildrenSt) (hs : List BastionMessage)
      (es : List Event),
      handleAll Children.handle st ms = FoldRes.term st2 hs es →
      st2 = { st with launched := [] } := by
  intro ms
  induction ms with
  | nil =>
    intro st st2 hs es hh
    simp only [handleAll] at hh
    cases hh
  | cons m ms ih =>
    intro st st2 hs es hh
    simp only [handleAll] at hh
    cases hm : Children.handle st m with
    | ok st1 evs1 =>
      simp only [hm] at hh
      cases hall : handleAll Children.handle st1 ms with
      | ok st2b hsb esb => rw [hall] at hh; cases hh
      | term st2b hsb esb =>
        rw [hall] at hh
        cases hh
        rw [ih _ _ _ _ hall, children_handle_ok_state st m st1 evs1 hm]
      | panicked hsb esb k => rw [hall] at hh; cases hh
    | term st1 evs1 =>
      rw [hm] at hh
      cases hh
      exact children_handle_term_state _ _ _ _ hm
    | panic k => rw [hm] at hh; cases hh

/-- A completed replay fold of `Child.handle` preserves the element's
lifecycle fields. -/
theorem child_handleAll_ok_fields :
    ∀ (ms : List BastionMessage) (st st2 : ChildSt) (hs : List BastionMessage)
      (es : List Event),
      handleAll Child.handle st ms = FoldRes.ok st2 hs es →
      st2.started = st.started ∧ st2.pre_start_msgs = st.pre_start_msgs
        ∧ st2.lockAlive = st.lockAlive ∧ st2.exec = st.exec := by
  intro ms
  induction ms with
  | nil =>
    intro st st2 hs es hh
    simp only [handleAll] at hh
    cases hh
    exact ⟨rfl, rfl, rfl, rfl⟩
  | cons m ms ih =>
    intro st st2 hs es hh
    simp only [handleAll] at hh
    cases hm : Child.handle st m with
    | ok st1 evs1 =>
      simp only [hm] at hh
      cases hall : handleAll Child.handle st1 ms with
      | ok st2b hsb esb =>
        rw [hall] at hh
        cases hh
        obtain ⟨a1, a2, a3, a4⟩ := ih _ _ _ _ hall
        obtain ⟨b1, b2, b3, b4⟩ := child_handle_ok_fields _ _ _ _ hm
        exact ⟨a1.trans b1, a2.trans b2, a3.trans b3, a4.trans b4⟩
      | term st2b hsb esb => rw [hall] at hh; cases hh
      | panicked hsb esb k => rw [hall] at hh; cases hh
    | term st1 evs1 => rw [hm] at hh; cases hh
    | panic k => rw [hm] at hh; cases hh

/-- A replay fold of `Child.handle` that hits the terminal signal also
preserves the element's lifecycle fields. -/
theorem child_handleAll_term_fields :
    ∀ (ms : List BastionMessage) (st st2 : ChildSt) (hs : List BastionMessage)
      (es : List Event),
      handleAll Child.handle st ms = FoldRes.term st2 hs es →
      st2.started = st.started ∧ st2.pre_start_msgs = st.pre_start_msgs
        ∧ st2.lockAlive = st.lockAlive ∧ st2.exec = st.exec := by
  intro ms
  induction ms with
  | nil =>
    intro st st2 hs es hh
    simp only [handleAll] at hh
    cases hh
  | cons m ms ih =>
    intro st st2 hs es hh
    simp only [handleAll] at hh
    cases hm : Child.handle st m with
    | ok st1 evs1 =>
      simp only [hm] at hh
      cases hall : handleAll Child.handle st1 ms with
      | ok st2b hsb esb => rw [hall] at hh; cases hh
      | term st2b hsb esb =>
        rw [hall] at hh
        cases hh
        obtain ⟨a1, a2, a3, a4⟩ := ih _ _ _ _ hall
        obtain ⟨b1, b2, b3, b4⟩ := child_handle_ok_fields _ _ _ _ hm
        exact ⟨a1.trans b1, a2.trans b2, a3.trans b3, a4.trans b4⟩
      | panicked hsb esb k => rw [hall] at hh; cases hh
    | term st1 evs1 =>
      rw [hm] at hh
      cases hh
      rw [child_handle_term_state _ _ _ _ hm]
      exact ⟨rfl, rfl, rfl, rfl⟩
    | panic k => rw [hm] at hh; cases hh

/-- While the group is not started, a non-`Start` inbound message is only
appended to `pre_start_msgs`. -/
theorem children_run_buffer_step (st : ChildrenSt) (m : BastionMessage)
    (rest : List StreamEv) (h : st.started = false) (hm : m ≠ BastionMessage.start) :
    Children.run st (StreamEv.msg m :: rest)
      = Children.run { st with pre_start_msgs := st.pre_start_msgs ++ [m] } rest := by
  cases m
  case start => exact absurd rfl hm
  all_goals simp [Children.run, h]

/-- Once the group is started, an inbound non-`Start` message goes
straight through `Children.handle`. -/
theorem children_run_post_step (st : ChildrenSt) (m : BastionMessage)
    (rest : List StreamEv) (h : st.started = true) (hm : m ≠ BastionMessage.start) :
    Children.run st (StreamEv.msg m :: rest)
      = (match Children.handle st m with
        | HandleRes.ok st1 es =>
          ⟨(Children.run st1 rest).state, m :: (Children.run st1 rest).handled,
            es ++ (Children.run st1 rest).events, (Children.run st1 rest).outcome⟩
        | HandleRes.term st1 es => ⟨st1, [m], es, RunOutcome.terminated⟩
        | HandleRes.panic k => ⟨st, [m], [], RunOutcome.panicked k⟩) := by
  cases m
  case start => exact absurd rfl hm
  all_goals simp [Children.run, h]

/-- Unfolding of `Children.run` on a `Start` message: latch, fan `Start`
out, drain and replay the pre-start buffer. -/
theorem children_run_start_step (st : ChildrenSt) (rest : List StreamEv) :
    Children.run st (StreamEv.msg BastionMessage.start :: rest)
      = (match handleAll Children.handle { st with started := true, pre_start_msgs := [] }
            st.pre_start_msgs with
        | FoldRes.ok st2 hs es =>
          ⟨(Children.run st2 rest).state, hs ++ (Children.run st2 rest).handled,
            Event.sendChildren BastionMessage.start
              :: (es ++ (Children.run st2 rest).events),
            (Children.run st2 rest).outcome⟩
        | FoldRes.term st2 hs es =>
          ⟨st2, hs, Event.sendChildren BastionMessage.start :: es, RunOutcome.terminated⟩
        | FoldRes.panicked hs es k =>
          ⟨{ st with started := true, pre_start_msgs := [] }, hs,
            Event.sendChildren BastionMessage.start :: es, RunOutcome.panicked k⟩) := by
  simp [Children.run]

/-- While the element is not started, a non-`Start` inbound message is
only appended to `pre_start_msgs`. -/
theorem child_run_buffer_step (st : ChildSt) (m : BastionMessage)
    (rest : List StreamEv) (h : st.started = false) (hm : m ≠ BastionMessage.start) :
    Child.run st (StreamEv.msg m :: rest)
      = Child.run { st with pre_start_msgs := st.pre_start_msgs ++ [m] } rest := by
  cases m
  case start => exact absurd rfl hm
  all_goals simp [Child.run, h]

/-- Once the element is started, an inbound non-`Start` message goes
straight through `Child.handle`. -/
theorem child_run_post_step (st : ChildSt) (m : BastionMessage)
    (rest : List StreamEv) (h : st.started = true) (hm : m ≠ BastionMessage.start) :
    Child.run st (StreamEv.msg m :: rest)
      = (match Child.handle st m with
        | HandleRes.ok st1 es =>
          ⟨(Child.run st1 rest).state, m :: (Child.run st1 rest).handled,
            es ++ (Child.run st1 rest).events, (Child.run st1 rest).outcome⟩
        | HandleRes.term st1 es => ⟨st1, [m], es, RunOutcome.terminated⟩
        | HandleRes.panic k => ⟨st, [m], [], RunOutcome.panicked k⟩) := by
  cases m
  case start => exact absurd rfl hm
  all_goals simp [Child.run, h]

/-- Unfolding of `Child.run` on a `Start` message: latch, drain and
replay the pre-start buffer. -/
theorem child_run_start_step (st : ChildSt) (rest : List StreamEv) :
    Child.run st (StreamEv.msg BastionMessage.start :: rest)
      = (match handleAll Child.handle { st with started := true, pre_start_msgs := [] }
            st.pre_start_msgs with
        | FoldRes.ok st2 hs es =>
          ⟨(Child.run st2 rest).state, hs ++ (Child.run st2 rest).handled,
            es ++ (Child.run st2 rest).events, (Child.run st2 rest).outcome⟩
        | FoldRes.term st2 hs es => ⟨st2, hs, es, RunOutcome.terminated⟩
        | FoldRes.panicked hs es k =>
          ⟨{ st with started := true, pre_start_msgs := [] }, hs, es,
            RunOutcome.panicked k⟩) := by
  simp [Child.run]

/-- As long as a `Children.run` prefix leaves the group still running,
`launched` is untouched: the live set only changes when the group
terminates (or is reset). -/
theorem children_run_launched :
    ∀ (evty : List StreamEv) (st : ChildrenSt),
      (Children.run st evty).outcome = RunOutcome.running →
      (Children.run st evty).state.launched = st.launched := by
  intro evty
  induction evty with
  | nil => intro st _; rfl
  | cons ev evs ih =>
    intro st hrun
    cases ev with
    | pending =>
      have h2 : Children.run st (StreamEv.pending :: evs) = Children.run st evs := by
        simp [Children.run]
      rw [h2] at hrun ⊢
      exact ih st hrun
    | closed =>
      have h2 : (Children.run st (StreamEv.closed :: evs)).outcome
          = RunOutcome.terminated := by
        simp [Children.run]
      rw [h2] at hrun
      cases hrun
    | msg m =>
      by_cases hm : m = BastionMessage.start
      · subst hm
        rw [children_run_start_step] at hrun ⊢
        set F := handleAll Children.handle
            { st with started := true, pre_start_msgs := [] } st.pre_start_msgs with hF
        clear_value F
        cases F with
        | ok st2 hs es =>
          simp only [] at hrun ⊢
          have hst2 := children_handleAll_ok_state _ _ _ _ _ hF.symm
          have h3 := ih st2 hrun
          exact h3.trans (by rw [hst2])
        | term st2 hs es => simp at hrun
        | panicked hs es k => simp at hrun
      · by_cases hstart : st.started
        · rw [children_run_post_step st m evs hstart hm] at hrun ⊢
          set H := Children.handle st m with hH
          clear_value H
          cases H with
          | ok st1 es =>
            simp only [] at hrun ⊢
            have h1 := children_handle_ok_state _ _ _ _ hH.symm
            have h3 := ih st1 hrun
            exact h3.trans (by rw [h1])
          | term st1 es => simp at hrun
          | panic k => simp at hrun
        · have hstart2 : st.started = false := by
            cases hq : st.started
            · rfl
            · exact absurd hq hstart
          rw [children_run_buffer_step st m evs hstart2 hm] at hrun ⊢
          exact ih _ hrun

/-- C9: Reset frame effect: `Children::reset(new_bcast, new_supervisor)`
kills and joins all current elements (the `KillChildren` fan-out, with
`launched` drained and re-filled) and spawns `redundancy` fresh ones, but
modifies only the `bcast`, `supervisor` and `launched` fields: `init`,
`redundancy`, `started` and `pre_start_msgs` are unchanged — in
particular a group that was started stays started, and buffered
pre-start messages are retained. -/
theorem reset_frame_effect (st : ChildrenSt) (b s f : Nat) :
    (Children.reset st b s f).1.initTag = st.initTag
    ∧ (Children.reset st b s f).1.redundancy = st.redundancy
    ∧ (Children.reset st b s f).1.started = st.started
    ∧ (Children.reset st b s f).1.pre_start_msgs = st.pre_start_msgs
    ∧ (Children.reset st b s f).1.bcastId = b
    ∧ (Children.reset st b s f).1.supervisorId = s
    ∧ (Children.reset st b s f).1.launched
        = (List.range st.redundancy).map (fun i => f + i)
    ∧ (Children.reset st b s f).2 = [Event.killChildren] := by
  simp [Children.reset, Children.kill, Children.new_elems, new_elemsAux_eq]

/-- C8: Redundancy invariant: immediately after `Children::new` (and
after every reset) `launched` holds exactly `redundancy` pairwise
distinct element ids, and `|launched|` stays equal to `redundancy` as
long as the group does not begin to stop or kill: a non-terminal
`handle` and any still-running `run` prefix leave `launched`
untouched. -/
theorem redundancy_invariant (i b s R f : Nat) (st st1 : ChildrenSt)
    (m : BastionMessage) (evs1 : List Event) (evty : List StreamEv)
    (hok : Children.handle st m = HandleRes.ok st1 evs1)
    (hrun : (Children.run st evty).outcome = RunOutcome.running) :
    (Children.new i b s R f).launched.length = R
    ∧ (Children.new i b s R f).launched.Nodup
    ∧ (Children.new i b s R f).redundancy = R
    ∧ (Children.reset st b s f).1.launched.length = st.redundancy
    ∧ (Children.reset st b s f).1.launched.Nodup
    ∧ st1.launched = st.launched
    ∧ (Children.run st evty).state.launched = st.launched := by
  have hinj : Function.Injective (fun i2 : Nat => f + i2) := by
    intro a c hac
    have hac2 : f + a = f + c := hac
    omega
  refine ⟨?_, ?_, ?_, ?_, ?_, ?_, ?_⟩
  · simp [Children.new, Children.new_elems, new_elemsAux_eq]
  · simp only [Children.new, Children.new_elems, new_elemsAux_eq]
    simpa using (List.nodup_range _).map hinj
  · simp [Children.new, Children.new_elems, new_elemsAux_eq]
  · simp [Children.reset, Children.kill, Children.new_elems, new_elemsAux_eq]
  · simp only [Children.reset, Children.kill, Children.new_elems, new_elemsAux_eq]
    simpa using (List.nodup_range _).map hinj
  · rw [children_handle_ok_state _ _ _ _ hok]
  · exact children_run_launched evty st hrun

/-- Witness for `redundancy_invariant` on a fresh group of redundancy 2
handling a `Tell` and running over a pending poll. -/
theorem redundancy_invariant_witness :
    (Children.handle (Children.new 0 0 0 2 0) (BastionMessage.tell (Msg.owned 0 0))
        = HandleRes.ok (Children.new 0 0 0 2 0)
            [Event.sendChildren (BastionMessage.tell (Msg.owned 0 0))])
    ∧ ((Children.run (Children.new 0 0 0 2 0) [StreamEv.pending]).outcome
        = RunOutcome.running)
    ∧ ((Children.new 0 0 0 2 0).launched.length = 2
      ∧ (Children.new 0 0 0 2 0).launched.Nodup
      ∧ (Children.new 0 0 0 2 0).redundancy = 2
      ∧ (Children.reset (Children.new 0 0 0 2 0) 0 0 0).1.launched.length
          = (Children.new 0 0 0 2 0).redundancy
      ∧ (Children.reset (Children.new 0 0 0 2 0) 0 0 0).1.launched.Nodup
      ∧ (Children.new 0 0 0 2 0).launched = (Children.new 0 0 0 2 0).launched
      ∧ (Children.run (Children.new 0 0 0 2 0) [StreamEv.pending]).state.launched
          = (Children.new 0 0 0 2 0).launched) :=
  ⟨by decide, by decide,
    redundancy_invariant 0 0 0 2 0 (Children.new 0 0 0 2 0) (Children.new 0 0 0 2 0)
      (BastionMessage.tell (Msg.owned 0 0))
      [Event.sendChildren (BastionMessage.tell (Msg.owned 0 0))] [StreamEv.pending]
      (by decide) (by decide)⟩

/-- After the group has started with an empty pre-start buffer, every
`Children.run` prefix keeps `started = true` and `pre_start_msgs = []`. -/
theorem children_run_started_inv :
    ∀ (evty : List StreamEv) (st : ChildrenSt),
      st.started = true → st.pre_start_msgs = [] →
      (Children.run st evty).state.started = true
        ∧ (Children.run st evty).state.pre_start_msgs = [] := by
  intro evty
  induction evty with
  | nil => intro st h1 h2; exact ⟨h1, h2⟩
  | cons ev evs ih =>
    intro st h1 h2
    cases ev with
    | pending =>
      have h3 : Children.run st (StreamEv.pending :: evs) = Children.run st evs := by
        simp [Children.run]
      rw [h3]
      exact ih st h1 h2
    | closed =>
      have h3 : Children.run st (StreamEv.closed :: evs)
          = ⟨{ st with launched := [] }, [], [Event.killChildren, Event.faulted],
              RunOutcome.terminated⟩ := by
        simp [Children.run]
      rw [h3]
      exact ⟨h1, h2⟩
    | msg m =>
      by_cases hm : m = BastionMessage.start
      · subst hm
        rw [children_run_start_step]
        set F := handleAll Children.handle
            { st with started := true, pre_start_msgs := [] } st.pre_start_msgs with hF
        clear_value F
        cases F with
        | ok st2 hs es =>
          simp only []
          have hst2 := children_handleAll_ok_state _ _ _ _ _ hF.symm
          exact ih st2 (by rw [hst2]) (by rw [hst2])
        | term st2 hs es =>
          simp only []
          have hst2 := children_handleAll_term_state _ _ _ _ _ hF.symm
          rw [hst2]
          exact ⟨rfl, rfl⟩
        | panicked hs es k => simp
      · by_cases hstart : st.started
        · rw [children_run_post_step st m evs hstart hm]
          set H := Children.handle st m with hH
          clear_value H
          cases H with
          | ok st1 es =>
            simp only []
            have heq := children_handle_ok_state _ _ _ _ hH.symm
            exact ih st1 (by rw [heq]; exact h1) (by rw [heq]; exact h2)
          | term st1 es =>
            simp only []
            have heq := children_handle_term_state _ _ _ _ hH.symm
            rw [heq]
            exact ⟨h1, h2⟩
          | panic k =>
            simp only []
            exact ⟨h1, h2⟩
        · exact absurd h1 hstart

/-- After the element has started with an empty pre-start buffer, every
`Child.run` prefix keeps `started = true` and `pre_start_msgs = []`. -/
theorem child_run_started_inv :
    ∀ (evty : List StreamEv) (st : ChildSt),
      st.started = true → st.pre_start_msgs = [] →
      (Child.run st evty).state.started = true
        ∧ (Child.run st evty).state.pre_start_msgs = [] := by
  intro evty
  induction evty with
  | nil => intro st h1 h2; exact ⟨h1, h2⟩
  | cons ev evs ih =>
    intro st h1 h2
    cases ev with
    | pending =>
      cases hex : st.exec with
      | nil =>
        have h3 : Child.run st (StreamEv.pending :: evs) = Child.run st evs := by
          simp [Child.run, h1, hex]
        rw [h3]
        exact ih st h1 h2
      | cons p rest =>
        cases p with
        | pending =>
          have h3 : Child.run st (StreamEv.pending :: evs)
              = Child.run { st with exec := rest } evs := by
            simp [Child.run, h1, hex]
          rw [h3]
          exact ih _ h1 h2
        | finOk =>
          have h3 : Child.run st (StreamEv.pending :: evs)
              = ⟨{ st with exec := rest }, [], [Event.stopped], RunOutcome.terminated⟩ := by
            simp [Child.run, h1, hex]
          rw [h3]
          exact ⟨h1, h2⟩
        | finErr =>
          have h3 : Child.run st (StreamEv.pending :: evs)
              = ⟨{ st with exec := rest }, [], [Event.faulted], RunOutcome.terminated⟩ := by
            simp [Child.run, h1, hex]
          rw [h3]
          exact ⟨h1, h2⟩
        | finPanic =>
          have h3 : Child.run st (StreamEv.pending :: evs)
              = ⟨{ st with exec := rest }, [], [Event.faulted], RunOutcome.terminated⟩ := by
            simp [Child.run, h1, hex]
          rw [h3]
          exact ⟨h1, h2⟩
    | closed =>
      have h3 : Child.run st (StreamEv.closed :: evs)
          = ⟨st, [], [Event.faulted], RunOutcome.terminated⟩ := by
        simp [Child.run]
      rw [h3]
      exact ⟨h1, h2⟩
    | msg m =>
      by_cases hm : m = BastionMessage.start
      · subst hm
        rw [child_run_start_step]
        set F := handleAll Child.handle
            { st with started := true, pre_start_msgs := [] } st.pre_start_msgs with hF
        clear_value F
        cases F with
        | ok st2 hs es =>
          simp only []
          obtain ⟨f1, f2, -, -⟩ := child_handleAll_ok_fields _ _ _ _ _ hF.symm
          exact ih st2 f1 f2
        | term st2 hs es =>
          simp only []
          obtain ⟨f1, f2, -, -⟩ := child_handleAll_term_fields _ _ _ _ _ hF.symm
          exact ⟨f1, f2⟩
        | panicked hs es k => simp
      · by_cases hstart : st.started
        · rw [child_run_post_step st m evs hstart hm]
          set H := Child.handle st m with hH
          clear_value H
          cases H with
          | ok st1 es =>
            simp only []
            obtain ⟨f1, f2, -, -⟩ := child_handle_ok_fields _ _ _ _ hH.symm
            exact ih st1 (f1.trans h1) (f2.trans h2)
          | term st1 es =>
            simp only []
            have heq := child_handle_term_state _ _ _ _ hH.symm
            rw [heq]
            exact ⟨h1, h2⟩
          | panic k =>
            simp only []
            exact ⟨h1, h2⟩
        · exact absurd h1 hstart

/-- Once the group is started, the messages a `Children.run` over a
message-only stream passes to `handle` are exactly the `takeHandled`
prefix: everything in order up to and including the first terminal or
panicking message. -/
theorem children_run_handled :
    ∀ (ms : List BastionMessage) (st : ChildrenSt),
      st.started = true → BastionMessage.start ∉ ms →
      (Children.run st (ms.map StreamEv.msg)).handled
        = takeHandled Children.handle st ms := by
  intro ms
  induction ms with
  | nil => intro st h1 h2; rfl
  | cons m ms ih =>
    intro st h1 h2
    have hm : m ≠ BastionMessage.start := by
      intro he
      subst he
      exact h2 (List.mem_cons_self _ _)
    have h2b : BastionMessage.start ∉ ms := fun hmem => h2 (List.mem_cons_of_mem _ hmem)
    rw [List.map_cons, children_run_post_step st m (ms.map StreamEv.msg) h1 hm]
    simp only [takeHandled]
    set H := Children.handle st m with hH
    clear_value H
    cases H with
    | ok st1 es =>
      simp only []
      have heq := children_handle_ok_state _ _ _ _ hH.symm
      rw [heq, ih st h1 h2b]
    | term st1 es => simp
    | panic k => simp

/-- Once the element is started, the messages a `Child.run` over a
message-only stream passes to `handle` are exactly the `takeHandled`
prefix. -/
theorem child_run_handled :
    ∀ (ms : List BastionMessage) (st : ChildSt),
      st.started = true → BastionMessage.start ∉ ms →
      (Child.run st (ms.map StreamEv.msg)).handled
        = takeHandled Child.handle st ms := by
  intro ms
  induction ms with
  | nil => intro st h1 h2; rfl
  | cons m ms ih =>
    intro st h1 h2
    have hm : m ≠ BastionMessage.start := by
      intro he
      subst he
      exact h2 (List.mem_cons_self _ _)
    have h2b : BastionMessage.start ∉ ms := fun hmem => h2 (List.mem_cons_of_mem _ hmem)
    rw [List.map_cons, child_run_post_step st m (ms.map StreamEv.msg) h1 hm]
    simp only [takeHandled]
    set H := Child.handle st m with hH
    clear_value H
    cases H with
    | ok st1 es =>
      simp only []
      obtain ⟨f1, -, -, -⟩ := child_handle_ok_fields _ _ _ _ hH.symm
      rw [ih st1 (f1.trans h1) h2b]
    | term st1 es => simp
    | panic k => simp

/-- While the group is not started, a run over buffered non-`Start`
messages only appends them, in arrival order, to `pre_start_msgs`. -/
theorem children_buffered_run :
    ∀ (ms : List BastionMessage) (st : ChildrenSt) (rest : List StreamEv),
      st.started = false → BastionMessage.start ∉ ms →
      Children.run st (ms.map StreamEv.msg ++ rest)
        = Children.run { st with pre_start_msgs := st.pre_start_msgs ++ ms } rest := by
  intro ms
  induction ms with
  | nil => intro st rest h1 h2; simp
  | cons m ms ih =>
    intro st rest h1 h2
    have hm : m ≠ BastionMessage.start := by
      intro he
      subst he
      exact h2 (List.mem_cons_self _ _)
    have h2b : BastionMessage.start ∉ ms := fun hmem => h2 (List.mem_cons_of_mem _ hmem)
    rw [List.map_cons, List.cons_append, children_run_buffer_step st m _ h1 hm,
      ih { st with pre_start_msgs := st.pre_start_msgs ++ [m] } rest h1 h2b]
    simp [List.append_assoc]

/-- While the element is not started, a run over buffered non-`Start`
messages only appends them, in arrival order, to `pre_start_msgs`. -/
theorem child_buffered_run :
    ∀ (ms : List BastionMessage) (st : ChildSt) (rest : List StreamEv),
      st.started = false → BastionMessage.start ∉ ms →
      Child.run st (ms.map StreamEv.msg ++ rest)
        = Child.run { st with pre_start_msgs := st.pre_start_msgs ++ ms } rest := by
  intro ms
  induction ms with
  | nil => intro st rest h1 h2; simp
  | cons m ms ih =>
    intro st rest h1 h2
    have hm : m ≠ BastionMessage.start := by
      intro he
      subst he
      exact h2 (List.mem_cons_self _ _)
    have h2b : BastionMessage.start ∉ ms := fun hmem => h2 (List.mem_cons_of_mem _ hmem)
    rw [List.map_cons, List.cons_append, child_run_buffer_step st m _ h1 hm,
      ih { st with pre_start_msgs := st.pre_start_msgs ++ [m] } rest h1 h2b]
    simp [List.append_assoc]

/-- C1: Pre-start replay discipline, for the group controller and the
element: every non-`Start` message received while `started = false` is
appended to `pre_start_msgs` in arrival order (and nothing is handled);
upon `Start` the buffer is drained in FIFO order through `handle` before
any post-start message, so the handled sequence of a run
`pres, Start, posts` is exactly the `takeHandled` prefix of
`pres ++ posts` from the started state; and once `started = true` the
state keeps `started = true` with `pre_start_msgs` empty. -/
theorem pre_start_replay (pres posts : List BastionMessage)
    (stG : ChildrenSt) (stC : ChildSt)
    (hG1 : stG.started = false) (hG2 : stG.pre_start_msgs = [])
    (hC1 : stC.started = false) (hC2 : stC.pre_start_msgs = [])
    (hpre : BastionMessage.start ∉ pres) (hpost : BastionMessage.start ∉ posts) :
    Children.run stG (pres.map StreamEv.msg)
      = ⟨{ stG with pre_start_msgs := pres }, [], [], RunOutcome.running⟩
    ∧ (Children.run stG (pres.map StreamEv.msg
          ++ StreamEv.msg BastionMessage.start :: posts.map StreamEv.msg)).handled
        = takeHandled Children.handle
            { stG with started := true, pre_start_msgs := [] } (pres ++ posts)
    ∧ (Children.run stG (pres.map StreamEv.msg
          ++ StreamEv.msg BastionMessage.start :: posts.map StreamEv.msg)).state.started
        = true
    ∧ (Children.run stG (pres.map StreamEv.msg
          ++ StreamEv.msg BastionMessage.start
            :: posts.map StreamEv.msg)).state.pre_start_msgs
        = []
    ∧ Child.run stC (pres.map StreamEv.msg)
      = ⟨{ stC with pre_start_msgs := pres }, [], [], RunOutcome.running⟩
    ∧ (Child.run stC (pres.map StreamEv.msg
          ++ StreamEv.msg BastionMessage.start :: posts.map StreamEv.msg)).handled
        = takeHandled Child.handle
            { stC with started := true, pre_start_msgs := [] } (pres ++ posts)
    ∧ (Child.run stC (pres.map StreamEv.msg
          ++ StreamEv.msg BastionMessage.start :: posts.map StreamEv.msg)).state.started
        = true
    ∧ (Child.run stC (pres.map StreamEv.msg
          ++ StreamEv.msg BastionMessage.start
            :: posts.map StreamEv.msg)).state.pre_start_msgs
        = [] := by
  have hmainG : Children.run stG (pres.map StreamEv.msg
        ++ StreamEv.msg BastionMessage.start :: posts.map StreamEv.msg)
      = Children.run { stG with pre_start_msgs := pres }
          (StreamEv.msg BastionMessage.start :: posts.map StreamEv.msg) := by
    rw [children_buffered_run pres stG _ hG1 hpre, hG2]
    simp
  have hmainC : Child.run stC (pres.map StreamEv.msg
        ++ StreamEv.msg BastionMessage.start :: posts.map StreamEv.msg)
      = Child.run { stC with pre_start_msgs := pres }
          (StreamEv.msg BastionMessage.start :: posts.map StreamEv.msg) := by
    rw [child_buffered_run pres stC _ hC1 hpre, hC2]
    simp
  have conj1G : Children.run stG (pres.map StreamEv.msg)
      = ⟨{ stG with pre_start_msgs := pres }, [], [], RunOutcome.running⟩ := by
    have h0 := children_buffered_run pres stG [] hG1 hpre
    rw [List.append_nil] at h0
    rw [h0, hG2]
    simp [Children.run]
  have conj1C : Child.run stC (pres.map StreamEv.msg)
      = ⟨{ stC with pre_start_msgs := pres }, [], [], RunOutcome.running⟩ := by
    have h0 := child_buffered_run pres stC [] hC1 hpre
    rw [List.append_nil] at h0
    rw [h0, hC2]
    simp [Child.run]
  have conj2G : (Children.run stG (pres.map StreamEv.msg
        ++ StreamEv.msg BastionMessage.start :: posts.map StreamEv.msg)).handled
      = takeHandled Children.handle
          { stG with started := true, pre_start_msgs := [] } (pres ++ posts) := by
    rw [hmainG, children_run_start_step]
    simp only []
    cases hall : handleAll Children.handle
        { stG with started := true, pre_start_msgs := [] } pres with
    | ok st2 hs es =>
      simp only []
      have hhs := handleAll_ok_handled Children.handle _ _ _ _ _ hall
      have hst2 := children_handleAll_ok_state _ _ _ _ _ hall
      have htk := handleAll_ok_take Children.handle pres posts _ _ _ _ hall
      rw [htk, hhs]
      congr 1
      exact children_run_handled posts st2 (by rw [hst2]) hpost
    | term st2 hs es =>
      simp only []
      exact (handleAll_term_take Children.handle pres posts _ _ _ _ hall).symm
    | panicked hs es k =>
      simp only []
      exact (handleAll_panicked_take Children.handle pres posts _ _ _ _ hall).symm
  have conj2C : (Child.run stC (pres.map StreamEv.msg
        ++ StreamEv.msg BastionMessage.start :: posts.map StreamEv.msg)).handled
      = takeHandled Child.handle
          { stC with started := true, pre_start_msgs := [] } (pres ++ posts) := by
    rw [hmainC, child_run_start_step]
    simp only []
    cases hall : handleAll Child.handle
        { stC with started := true, pre_start_msgs := [] } pres with
    | ok st2 hs es =>
      simp only []
      have hhs := handleAll_ok_handled Child.handle _ _ _ _ _ hall
      obtain ⟨f1, -, -, -⟩ := child_handleAll_ok_fields _ _ _ _ _ hall
      have htk := handleAll_ok_take Child.handle pres posts _ _ _ _ hall
      rw [htk, hhs]
      congr 1
      exact child_run_handled posts st2 f1 hpost
    | term st2 hs es =>
      simp only []
      exact (handleAll_term_take Child.handle pres posts _ _ _ _ hall).symm
    | panicked hs es k =>
      simp only []
      exact (handleAll_panicked_take Child.handle pres posts _ _ _ _ hall).symm
  have conj34G : (Children.run stG (pres.map StreamEv.msg
        ++ StreamEv.msg BastionMessage.start :: posts.map StreamEv.msg)).state.started
        = true
      ∧ (Children.run stG (pres.map StreamEv.msg
          ++ StreamEv.msg BastionMessage.start
            :: posts.map StreamEv.msg)).state.pre_start_msgs = [] := by
    rw [hmainG, children_run_start_step]
    simp only []
    cases hall : handleAll Children.handle
        { stG with started := true, pre_start_msgs := [] } pres with
    | ok st2 hs es =>
      simp only []
      have hst2 := children_handleAll_ok_state _ _ _ _ _ hall
      exact children_run_started_inv _ st2 (by rw [hst2]) (by rw [hst2])
    | term st2 hs es =>
      have hst2 := children_handleAll_term_state _ _ _ _ _ hall
      rw [hst2]
      exact ⟨rfl, rfl⟩
    | panicked hs es k => exact ⟨rfl, rfl⟩
  have conj34C : (Child.run stC (pres.map StreamEv.msg
        ++ StreamEv.msg BastionMessage.start :: posts.map StreamEv.msg)).state.started
        = true
      ∧ (Child.run stC (pres.map StreamEv.msg
          ++ StreamEv.msg BastionMessage.start
            :: posts.map StreamEv.msg)).state.pre_start_msgs = [] := by
    rw [hmainC, child_run_start_step]
    simp only []
    cases hall : handleAll Child.handle
        { stC with started := true, pre_start_msgs := [] } pres with
    | ok st2 hs es =>
      simp only []
      obtain ⟨f1, f2, -, -⟩ := child_handleAll_ok_fields _ _ _ _ _ hall
      exact child_run_started_inv _ st2 f1 f2
    | term st2 hs es =>
      obtain ⟨f1, f2, -, -⟩ := child_handleAll_term_fields _ _ _ _ _ hall
      exact ⟨f1, f2⟩
    | panicked hs es k => exact ⟨rfl, rfl⟩
  exact ⟨conj1G, conj2G, conj34G.1, conj34G.2, conj1C, conj2C, conj34C.1, conj34C.2⟩

/-- Witness for `pre_start_replay`: one buffered `Tell` before `Start`,
one `Stop` after, on a fresh group of redundancy 1 and a fresh element. -/
theorem pre_start_replay_witness :
    ((Children.new 0 0 0 1 5).started = false
      ∧ (Children.new 0 0 0 1 5).pre_start_msgs = []
      ∧ (⟨[], true, [], [], false⟩ : ChildSt).started = false
      ∧ (⟨[], true, [], [], false⟩ : ChildSt).pre_start_msgs = []
      ∧ BastionMessage.start ∉ [BastionMessage.tell (Msg.Shared 0 1)]
      ∧ BastionMessage.start ∉ [BastionMessage.stop])
    ∧ (Children.run (Children.new 0 0 0 1 5)
          ([BastionMessage.tell (Msg.Shared 0 1)].map StreamEv.msg)
        = ⟨{ Children.new 0 0 0 1 5 with
              pre_start_msgs := [BastionMessage.tell (Msg.Shared 0 1)] }, [], [],
            RunOutcome.running⟩
      ∧ (Children.run (Children.new 0 0 0 1 5)
            ([BastionMessage.tell (Msg.Shared 0 1)].map StreamEv.msg
              ++ StreamEv.msg BastionMessage.start
                :: [BastionMessage.stop].map StreamEv.msg)).handled
          = takeHandled Children.handle
              { Children.new 0 0 0 1 5 with started := true, pre_start_msgs := [] }
              ([BastionMessage.tell (Msg.Shared 0 1)] ++ [BastionMessage.stop])
      ∧ (Children.run (Children.new 0 0 0 1 5)
            ([BastionMessage.tell (Msg.Shared 0 1)].map StreamEv.msg
              ++ StreamEv.msg BastionMessage.start
                :: [BastionMessage.stop].map StreamEv.msg)).state.started = true
      ∧ (Children.run (Children.new 0 0 0 1 5)
            ([BastionMessage.tell (Msg.Shared 0 1)].map StreamEv.msg
              ++ StreamEv.msg BastionMessage.start
                :: [BastionMessage.stop].map StreamEv.msg)).state.pre_start_msgs = []
      ∧ Child.run (⟨[], true, [], [], false⟩ : ChildSt)
          ([BastionMessage.tell (Msg.Shared 0 1)].map StreamEv.msg)
        = ⟨{ (⟨[], true, [], [], false⟩ : ChildSt) with
              pre_start_msgs := [BastionMessage.tell (Msg.Shared 0 1)] }, [], [],
            RunOutcome.running⟩
      ∧ (Child.run (⟨[], true, [], [], false⟩ : ChildSt)
            ([BastionMessage.tell (Msg.Shared 0 1)].map StreamEv.msg
              ++ StreamEv.msg BastionMessage.start
                :: [BastionMessage.stop].map StreamEv.msg)).handled
          = takeHandled Child.handle
              { (⟨[], true, [], [], false⟩ : ChildSt) with
                  started := true, pre_start_msgs := [] }
              ([BastionMessage.tell (Msg.Shared 0 1)] ++ [BastionMessage.stop])
      ∧ (Child.run (⟨[], true, [], [], false⟩ : ChildSt)
            ([BastionMessage.tell (Msg.Shared 0 1)].map StreamEv.msg
              ++ StreamEv.msg BastionMessage.start
                :: [BastionMessage.stop].map StreamEv.msg)).state.started = true
      ∧ (Child.run (⟨[], true, [], [], false⟩ : ChildSt)
            ([BastionMessage.tell (Msg.Shared 0 1)].map StreamEv.msg
              ++ StreamEv.msg BastionMessage.start
                :: [BastionMessage.stop].map StreamEv.msg)).state.pre_start_msgs
          = []) :=
  ⟨by decide,
    pre_start_replay [BastionMessage.tell (Msg.Shared 0 1)] [BastionMessage.stop]
      (Children.new 0 0 0 1 5) ⟨[], true, [], [], false⟩
      (by decide) (by decide) (by decide) (by decide) (by decide) (by decide)⟩

/-- C10: Duplicate `Start` is tolerated: a `Start` received while
`started` is already true (with the pre-start buffer empty, as the
invariant guarantees) is not an error — the group latches `started`
again, re-forwards `Start` to every element, drains the empty buffer and
continues exactly as without the duplicate, its event trace only gaining
the `Start` fan-out; an element likewise re-latches and continues
unchanged. -/
theorem duplicate_start (stG : ChildrenSt) (stC : ChildSt) (evsG evsC : List StreamEv)
    (hG1 : stG.started = true) (hG2 : stG.pre_start_msgs = [])
    (hC1 : stC.started = true) (hC2 : stC.pre_start_msgs = []) :
    Children.run stG (StreamEv.msg BastionMessage.start :: evsG)
      = ⟨(Children.run stG evsG).state, (Children.run stG evsG).handled,
          Event.sendChildren BastionMessage.start :: (Children.run stG evsG).events,
          (Children.run stG evsG).outcome⟩
    ∧ Child.run stC (StreamEv.msg BastionMessage.start :: evsC) = Child.run stC evsC := by
  have hGbase : ({ stG with started := true, pre_start_msgs := [] } : ChildrenSt)
      = stG := by
    cases stG with
    | mk b s l i r p q =>
      simp only [] at hG1 hG2
      subst hG1
      subst hG2
      rfl
  have hCbase : ({ stC with started := true, pre_start_msgs := [] } : ChildSt)
      = stC := by
    cases stC with
    | mk mb la ex p q =>
      simp only [] at hC1 hC2
      subst hC1
      subst hC2
      rfl
  constructor
  · rw [children_run_start_step, hG2, hGbase]
    simp [handleAll]
  · rw [child_run_start_step, hC2, hCbase]
    simp [handleAll]

/-- Witness for `duplicate_start` on an already-started group and
element with empty pre-start buffers. -/
theorem duplicate_start_witness :
    (({ Children.new 0 0 0 1 0 with started := true } : ChildrenSt).started = true
      ∧ ({ Children.new 0 0 0 1 0 with started := true } : ChildrenSt).pre_start_msgs = []
      ∧ (⟨[], true, [], [], true⟩ : ChildSt).started = true
      ∧ (⟨[], true, [], [], true⟩ : ChildSt).pre_start_msgs = [])
    ∧ (Children.run { Children.new 0 0 0 1 0 with started := true }
          (StreamEv.msg BastionMessage.start :: [StreamEv.pending])
        = ⟨(Children.run { Children.new 0 0 0 1 0 with started := true }
              [StreamEv.pending]).state,
            (Children.run { Children.new 0 0 0 1 0 with started := true }
              [StreamEv.pending]).handled,
            Event.sendChildren BastionMessage.start
              :: (Children.run { Children.new 0 0 0 1 0 with started := true }
                    [StreamEv.pending]).events,
            (Children.run { Children.new 0 0 0 1 0 with started := true }
              [StreamEv.pending]).outcome⟩
      ∧ Child.run (⟨[], true, [], [], true⟩ : ChildSt)
            (StreamEv.msg BastionMessage.start :: [])
          = Child.run (⟨[], true, [], [], true⟩ : ChildSt) []) :=
  ⟨by decide,
    duplicate_start { Children.new 0 0 0 1 0 with started := true }
      ⟨[], true, [], [], true⟩ [StreamEv.pending] []
      (by decide) (by decide) (by decide) (by decide)⟩

/-- C4 counterexample: an element whose context-state lock cannot be
acquired (owner dropped) that handles a `Tell` terminates, but its event
trace is empty: no `faulted` (nor any) notification is emitted, so the
fault is not signaled to the group. -/
theorem lock_failure_no_notification :
    Child.run ⟨[], false, [], [], true⟩
        [StreamEv.msg (BastionMessage.tell (Msg.Owned 0 0))]
      = ⟨⟨[], false, [], [], true⟩, [BastionMessage.tell (Msg.Owned 0 0)], [],
          RunOutcome.terminated⟩
    ∧ Event.faulted ∉ (Child.run ⟨[], false, [], [], true⟩
        [StreamEv.msg (BastionMessage.tell (Msg.Owned 0 0))]).events := by
  decide

/-- C4 as amended: if the element fails to acquire the context-state
lock while handling `Tell`, `handle` returns the terminal signal and the
run terminates — a terminal fault — but no notification at all (in
particular no `Faulted{id}`) is emitted on this path: the element dies
silently. -/
theorem lock_failure_silent_fault (st : ChildSt) (m : Msg) (evs2 : List StreamEv)
    (hlock : st.lockAlive = false) (hst : st.started = true) :
    Child.handle st (BastionMessage.tell m) = HandleRes.term st []
    ∧ Child.run st (StreamEv.msg (BastionMessage.tell m) :: evs2)
        = ⟨st, [BastionMessage.tell m], [], RunOutcome.terminated⟩ := by
  have hh : Child.handle st (BastionMessage.tell m) = HandleRes.term st [] := by
    simp [Child.handle, hlock]
  refine ⟨hh, ?_⟩
  rw [child_run_post_step st (BastionMessage.tell m) evs2 hst (by intro h; cases h), hh]

/-- Witness for `lock_failure_silent_fault` on a started element with a
dead lock. -/
theorem lock_failure_silent_fault_witness :
    ((⟨[], false, [], [], true⟩ : ChildSt).lockAlive = false
      ∧ (⟨[], false, [], [], true⟩ : ChildSt).started = true)
    ∧ (Child.handle ⟨[], false, [], [], true⟩ (BastionMessage.tell (Msg.Owned 1 2))
          = HandleRes.term ⟨[], false, [], [], true⟩ []
      ∧ Child.run ⟨[], false, [], [], true⟩
            (StreamEv.msg (BastionMessage.tell (Msg.Owned 1 2)) :: [])
          = ⟨⟨[], false, [], [], true⟩, [BastionMessage.tell (Msg.Owned 1 2)], [],
              RunOutcome.terminated⟩) :=
  ⟨⟨rfl, rfl⟩,
    lock_failure_silent_fault ⟨[], false, [], [], true⟩ (Msg.Owned 1 2) []
      rfl rfl⟩
